import Mathlib

/-!
Verification of `src/jukebox/playlistgenerator.py` (RPi-Jukebox-RFID).

The Python module builds an ordered playlist from a directory tree:
`PlaylistCollector.parse` scans a folder (optionally recursively), filters and
sorts the directory entries, dispatches each entry to a suffix-keyed special
handler (`decode_livestream`, `decode_podcast`, a no-op for generic `.txt`,
`decode_m3u`) or to the default handler `decode_musicfile`, and accumulates the
resulting entries.  `decode_podcast_core` fetches a feed URL over HTTP and
extracts enclosure URLs with the regular expression `.*enclosure.*url="([^"]*)"`.

This file gives a shallow embedding of that module: the filesystem and the
network are explicit oracles (`FileSystem`), Python exceptions are an explicit
error type threaded through `Except`, and the regular-expression scans
(`re.findall` for enclosures, `re.match` for the exclusion pattern) are
implemented with the concrete backtracking semantics of the Python `re` engine
specialised to the two patterns that occur in the source.
-/

namespace PlGen

/-! ### Characters and strings

Python string primitives used by the source, modelled over `List Char`.
`str.casefold` / `str.lower` agree with ASCII lowercasing on the characters the
module manipulates (file names, suffix keys); `pyLower` is that ASCII map,
written as an explicit table so that its behaviour is transparent.
-/

/-- ASCII lowercasing of one character: model of Python `str.lower` /
`str.casefold` restricted to the basic latin range. -/
def pyLower (c : Char) : Char :=
  match c with
  | 'A' => 'a' | 'B' => 'b' | 'C' => 'c' | 'D' => 'd' | 'E' => 'e' | 'F' => 'f'
  | 'G' => 'g' | 'H' => 'h' | 'I' => 'i' | 'J' => 'j' | 'K' => 'k' | 'L' => 'l'
  | 'M' => 'm' | 'N' => 'n' | 'O' => 'o' | 'P' => 'p' | 'Q' => 'q' | 'R' => 'r'
  | 'S' => 's' | 'T' => 't' | 'U' => 'u' | 'V' => 'v' | 'W' => 'w' | 'X' => 'x'
  | 'Y' => 'y' | 'Z' => 'z'
  | c => c

/-- The character list of `s`, lowercased: model of `s.casefold()` (ASCII). -/
def lowerData (s : String) : List Char := s.data.map pyLower

/-- `name.casefold().endswith(key)` where `key` is already lowercase. -/
def endsCf (name key : String) : Bool := key.data.isSuffixOf (lowerData name)

/-- Case-sensitive `s.startswith(pre)`. -/
def startsWithLit (s pre : String) : Bool := pre.data.isPrefixOf s.data

/-- Case-sensitive `s.endswith(suf)`. -/
def endsWithLit (s suf : String) : Bool := suf.data.isSuffixOf s.data

/-- The whitespace set stripped by Python `str.strip()` (ASCII part). -/
def isPyWs (c : Char) : Bool :=
  c == ' ' || c == '\t' || c == '\n' || c == '\r' || c == '\x0b' || c == '\x0c'

/-- Python `line.strip()`. -/
def pyStrip (s : String) : String :=
  ⟨((s.data.dropWhile isPyWs).reverse.dropWhile isPyWs).reverse⟩

/-- The per-line filter shared by every list-file reader in the module:
`if len(line) > 0 and not line.startswith('#')`. -/
def keepLine (s : String) : Bool := s.data.length > 0 && !(startsWithLit s "#")

/-- Strip every line and keep the non-blank non-comment ones, in order. -/
def cleanLines (ls : List String) : List String := (ls.map pyStrip).filter keepLine

/-! ### POSIX path functions

`os.path.join`, `os.path.normpath` and `os.path.abspath` as used by the
source, translated from CPython's `posixpath.py`. -/

/-- Split a character list at `'/'` (the component split inside `normpath`). -/
def splitSlashAux : List Char → List Char → List (List Char)
  | [], acc => [acc.reverse]
  | c :: rest, acc =>
    if c == '/' then acc.reverse :: splitSlashAux rest [] else splitSlashAux rest (c :: acc)

/-- The component-processing loop of `posixpath.normpath`. -/
def normComps (slashes : Nat) : List String → List String → List String
  | acc, [] => acc
  | acc, comp :: rest =>
    if comp == "" || comp == "." then normComps slashes acc rest
    else if comp != ".." || (slashes == 0 && acc.isEmpty)
            || (!acc.isEmpty && acc.getLast? == some "..") then
      normComps slashes (acc ++ [comp]) rest
    else if !acc.isEmpty then normComps slashes acc.dropLast rest
    else normComps slashes acc rest

/-- `os.path.normpath` (POSIX): collapse `//`, `.` and `..` components, with
the CPython special case keeping exactly two leading slashes. -/
def normpath (p : String) : String :=
  if p = "" then "." else
  let slashes : Nat :=
    if startsWithLit p "//" && !(startsWithLit p "///") then 2
    else if startsWithLit p "/" then 1 else 0
  let comps := (splitSlashAux p.data []).map (fun l => (⟨l⟩ : String))
  let newComps := normComps slashes [] comps
  let res := (⟨List.replicate slashes '/'⟩ : String) ++ String.intercalate "/" newComps
  if res = "" then "." else res

/-- `os.path.join(a, b)` (POSIX, two arguments). -/
def pjoin (a b : String) : String :=
  if startsWithLit b "/" then b
  else if a = "" || endsWithLit a "/" then a ++ b
  else a ++ "/" ++ b

/-- `os.path.abspath(p)` with the process working directory `cwd` explicit. -/
def abspath (cwd p : String) : String :=
  normpath (if startsWithLit p "/" then p else pjoin cwd p)

/-! ### The enclosure regular expression

`enclosure_re = re.compile(r'.*enclosure.*url="([^"]*)"')` and
`enclosure_re.findall(body)`.  The Python engine scans left to right: at each
start position it tries to match; `.*` is greedy and cannot cross `'\n'`,
`[^"]*` is greedy and can cross `'\n'`, the capture is the text between
`url="` and the next `'"'`.  For this pattern a match attempt at position `p`
succeeds exactly when some `enclosure` literal lies at `i ≥ p` on the same
line and some `url="` literal lies at `j ≥ i + 9` on the same line with a
closing quote after it; greediness picks the largest such `i` (and, for that
`i`, the largest such `j`).  `findall` then resumes scanning at the end of the
match and returns the captures in order. -/

/-- Is the literal `lit` present in `s` at position `i`? -/
def litAt (s lit : List Char) (i : Nat) : Bool := lit.isPrefixOf (s.drop i)

/-- No newline in `s` on the index range `[a, b)` — the region a greedy `.*`
has to cross. -/
def noNl (s : List Char) (a b : Nat) : Bool :=
  ((s.drop a).take (b - a)).all (fun c => !(c == '\n'))

/-- Position of the first `'"'` at or after `k` (end of the greedy `[^"]*`). -/
def firstQuote (s : List Char) (k : Nat) : Option Nat :=
  match (s.drop k).findIdx? (fun c => c == '"') with
  | some d => some (k + d)
  | none => none

/-- Can `url="([^"]*)"` match starting at `j`, with `.*` having crossed
`[k, j)`? -/
def goodJ (s : List Char) (k j : Nat) : Bool :=
  decide (k ≤ j) && litAt s "url=\"".data j && noNl s k j && (firstQuote s (j + 5)).isSome

/-- Greedy choice of the `url="` position for the second `.*`. -/
def bestJ (s : List Char) (k : Nat) : Option Nat :=
  ((List.range (s.length + 1)).filter (goodJ s k)).getLast?

/-- Can `enclosure.*url="([^"]*)"` match starting at `i`, with the first `.*`
having crossed `[p, i)`? -/
def goodI (s : List Char) (p i : Nat) : Bool :=
  decide (p ≤ i) && litAt s "enclosure".data i && noNl s p i && (bestJ s (i + 9)).isSome

/-- Greedy choice of the `enclosure` position for the first `.*`. -/
def bestI (s : List Char) (p : Nat) : Option Nat :=
  ((List.range (s.length + 1)).filter (goodI s p)).getLast?

/-- One match attempt of `enclosure_re` at position `p`: on success, the end
position of the whole match and the captured group. -/
def matchAt (s : List Char) (p : Nat) : Option (Nat × List Char) :=
  match bestI s p with
  | none => none
  | some i =>
    match bestJ s (i + 9) with
    | none => none
    | some j =>
      match firstQuote s (j + 5) with
      | none => none
      | some q => some (q + 1, (s.drop (j + 5)).take (q - (j + 5)))

/-- The scan loop of `re.findall`: try a match at `pos`, on success emit the
capture and resume at the match end, otherwise advance one position.  Matches
of this pattern are never empty (they contain `enclosure`), so the position
strictly increases and fuel `s.length + 2` is enough. -/
def findallAux (s : List Char) : Nat → Nat → List (List Char)
  | _, 0 => []
  | pos, fuel + 1 =>
    if pos > s.length then []
    else
      match matchAt s pos with
      | some (e, cap) => cap :: findallAux s e fuel
      | none => findallAux s (pos + 1) fuel

/-- `enclosure_re.findall(body)`: every captured URL, in scan order. -/
def enclosureFindall (body : String) : List String :=
  (findallAux body.data 0 (body.data.length + 2)).map (fun l => (⟨l⟩ : String))

/-- Number of occurrences of `sub` in `s` (used to state that a feed body
contains a given number of `enclosure url="` fragments). -/
def countOcc (s sub : String) : Nat :=
  ((List.range (s.data.length + 1)).filter (litAt s.data sub.data)).length

/-! ### Data model

Python exceptions, directory entries, HTTP responses, and the filesystem and
network oracle a resolution runs against. -/

/-- The exception classes distinguished by the module: `parse` catches
`FileNotFoundError` and `NotADirectoryError`; everything else that `open` or
`os.scandir` may raise (represented by `permissionDenied`) is not caught. -/
inductive PyError where
  | fileNotFound
  | notADirectory
  | permissionDenied
deriving DecidableEq

/-- An `os.DirEntry` as consumed by the module: its `name` and its `is_file()`
flag.  Its `path` attribute is `os.path.join(scandir_path, name)`. -/
structure DirEntry where
  name : String
  isFile : Bool
deriving DecidableEq

/-- A `requests` response: status code and the already-decoded text body
(`r.content.decode(r.encoding)`). -/
structure HttpResponse where
  statusCode : Nat
  body : String
deriving DecidableEq

/-- The environment of one resolution.

* `dirents`: the directory table — `os.scandir p` returns the listing of the
  first entry with key `p`, in listing order.
* `isFilePath`: whether a path names a file; `os.scandir` on it raises
  `NotADirectoryError` rather than `FileNotFoundError`.
* `fileRead`: `open(path).readlines()` (lines without their trailing newline),
  or the exception the `open`/read raises.  Python resolves a relative
  argument against the process working directory; the oracle is keyed by the
  string the code passes to `open`.
* `fetch`: `requests.get(url)` — `none` when the call raises a network error.
-/
structure FileSystem where
  dirents : List (String × List DirEntry)
  isFilePath : String → Bool
  fileRead : String → Except PyError (List String)
  fetch : String → Option HttpResponse

/-- Listing of directory `p`, if `p` is a directory of the table. -/
def FileSystem.findDir (fs : FileSystem) (p : String) : Option (List DirEntry) :=
  (fs.dirents.find? (fun kv => kv.1 == p)).map (fun kv => kv.2)

/-- `os.scandir p`: the listing, or the exception it raises. -/
def FileSystem.scandir (fs : FileSystem) (p : String) : Except PyError (List DirEntry) :=
  match fs.findDir p with
  | some es => .ok es
  | none => .error (if fs.isFilePath p then .notADirectory else .fileNotFound)

/-- The directory paths yielded by `os.walk(p, followlinks=True)`: the root
`p` and every directory of the table lying below it; a missing or non-directory
root yields nothing (`os.walk` swallows the error).  Symbolic links are not
represented in the table, so following them is the identity here. -/
def FileSystem.walkDirs (fs : FileSystem) (p : String) : List String :=
  if (fs.findDir p).isSome then
    (fs.dirents.map (fun kv => kv.1)).filter (fun q => q == p || startsWithLit q (p ++ "/"))
  else []

/-! ### Python `sorted` with a `casefold` key -/

/-- Code-point lexicographic strict order on character lists: Python `str` `<`. -/
def listLt : List Char → List Char → Bool
  | [], [] => false
  | [], _ :: _ => true
  | _ :: _, [] => false
  | a :: as, b :: bs => if a < b then true else if b < a then false else listLt as bs

/-- `a` may be placed before `b` by `sorted(key=str.casefold)`: the key of `b`
is not strictly below the key of `a`. -/
def casefoldLe (a b : String) : Bool := !(listLt (lowerData b) (lowerData a))

/-- Stable insertion (ties keep the earlier element first). -/
def pyInsert (le : α → α → Bool) (x : α) : List α → List α
  | [] => [x]
  | y :: ys => if le x y then x :: y :: ys else y :: pyInsert le x ys

/-- Stable sort: the model of Python `sorted`.  For a total preorder `le` a
stable sort is unique, so insertion sort and timsort agree. -/
def pySort (le : α → α → Bool) : List α → List α
  | [] => []
  | x :: xs => pyInsert le x (pySort le xs)

/-- `sorted(directory, key=lambda x: x.name.casefold())`. -/
def sortEntries (es : List DirEntry) : List DirEntry :=
  pySort (fun a b => casefoldLe a.name b.name) es

/-- `sorted(dir_list, key=lambda x: x.casefold())`. -/
def sortStrings (ds : List String) : List String := pySort casefoldLe ds

/-! ### The decode functions -/

/-- `decode_podcast_core(url, playlist)`: HTTP GET the feed; a raised network
error is logged and contributes nothing; any response body — also on a
non-200 status, which is only logged — is scanned with `enclosure_re.findall`
and every capture is appended in order (an empty result is only logged). -/
def decode_podcast_core (fs : FileSystem) (url : String) : List String :=
  match fs.fetch url with
  | none => []
  | some r => enclosureFindall r.body

/-- `decode_podcast(filename, path, playlist)`: open `filename`, and for every
stripped non-blank non-comment line fetch it as a feed and append the
enclosure URLs.  The `open` may raise. -/
def decode_podcast (fs : FileSystem) (fname : String) : Except PyError (List String) :=
  match fs.fileRead fname with
  | .error e => .error e
  | .ok ls => .ok ((cleanLines ls).flatMap (decode_podcast_core fs))

/-- `decode_livestream(filename, path, playlist)`: open the entry's path and
append every stripped non-blank non-comment line verbatim. -/
def decode_livestream (fs : FileSystem) (fpath : String) : Except PyError (List String) :=
  match fs.fileRead fpath with
  | .error e => .error e
  | .ok ls => .ok (cleanLines ls)

/-- `decode_musicfile(filename, path, playlist)`:
`playlist.append(os.path.normpath(os.path.join(path, filename.name)))`. -/
def decode_musicfile (dirPath name : String) : String := normpath (pjoin dirPath name)

/-- One line of an `.m3u` folder playlist: a line ending in `.xml` or
`.podcast` is handed to `decode_podcast` (which opens it as a local file); a
line starting with `http://`, `https://` or `ftp://` is appended verbatim;
any other line is appended as `normpath(join(path, line))`. -/
def m3uLine (fs : FileSystem) (dirPath line : String) : Except PyError (List String) :=
  if endsWithLit line ".xml" || endsWithLit line ".podcast" then decode_podcast fs line
  else if startsWithLit line "http://" || startsWithLit line "https://"
          || startsWithLit line "ftp://" then .ok [line]
  else .ok [normpath (pjoin dirPath line)]

/-- The line loop of `decode_m3u`, accumulating into `acc`. -/
def m3uLines (fs : FileSystem) (dirPath : String) :
    List String → List String → Except PyError (List String)
  | [], acc => .ok acc
  | l :: rest, acc =>
    match m3uLine fs dirPath l with
    | .error e => .error e
    | .ok xs => m3uLines fs dirPath rest (acc ++ xs)

/-- `decode_m3u(filename, path, playlist)`: clear the folder playlist built so
far (the accumulator is discarded — the result depends only on the file), then
rebuild it from the file's stripped non-blank non-comment lines.  Returns
`True` in the source, which stops processing of the remaining entries. -/
def decode_m3u (fs : FileSystem) (fpath dirPath : String) : Except PyError (List String) :=
  match fs.fileRead fpath with
  | .error e => .error e
  | .ok ls => m3uLines fs dirPath (cleanLines ls) []

/-! ### Classification and the per-folder loop -/

/-- The four suffix-keyed special handlers. -/
inductive HandlerKind where
  | livestream
  | podcast
  | txt
  | m3u
deriving DecidableEq

/-- The `special_handlers` dict in insertion order. -/
def handlerKeys : List (String × HandlerKind) :=
  [("livestream.txt", .livestream), ("podcast.txt", .podcast),
   (".txt", .txt), (".m3u", .m3u)]

/-- The inner loop of `_parse_nonrecusive`: the first key of
`special_handlers` that `filename.name.casefold().endswith(key)` matches, if
any. -/
def classify (name : String) : Option HandlerKind :=
  (handlerKeys.find? (fun kv => endsCf name kv.1)).map (fun kv => kv.2)

/-- `PlaylistCollector._is_valid` with the process-wide exclusion predicate
`excl` explicit: a regular file, not hidden, not matching the exclusion
pattern. -/
def isValid (excl : String → Bool) (e : DirEntry) : Bool :=
  e.isFile && !(startsWithLit e.name ".") && !(excl e.name)

/-- The entry loop of `_parse_nonrecusive` over the sorted valid entries:
dispatch to the matching special handler or to `decode_musicfile`; a `.txt`
entry is a no-op; an `.m3u` entry replaces the accumulator by the file's own
content and stops the loop; a raised exception aborts the loop. -/
def processEntries (fs : FileSystem) (dirPath : String) :
    List DirEntry → List String → Except PyError (List String)
  | [], acc => .ok acc
  | e :: rest, acc =>
    match classify e.name with
    | some .livestream =>
      match decode_livestream fs (pjoin dirPath e.name) with
      | .error er => .error er
      | .ok xs => processEntries fs dirPath rest (acc ++ xs)
    | some .podcast =>
      match decode_podcast fs (pjoin dirPath e.name) with
      | .error er => .error er
      | .ok xs => processEntries fs dirPath rest (acc ++ xs)
    | some .txt => processEntries fs dirPath rest acc
    | some .m3u => decode_m3u fs (pjoin dirPath e.name) dirPath
    | none => processEntries fs dirPath rest (acc ++ [decode_musicfile dirPath e.name])

/-- `_parse_nonrecusive` after the `os.scandir` call: filter with `_is_valid`,
sort case-insensitively, then run the entry loop on an empty accumulator. -/
def parseNonrecursiveCore (fs : FileSystem) (excl : String → Bool) (dirPath : String)
    (es : List DirEntry) : Except PyError (List String) :=
  processEntries fs dirPath (sortEntries (es.filter (isValid excl))) []

/-- `PlaylistCollector._parse_nonrecusive(path)`. -/
def parseNonrecursive (fs : FileSystem) (excl : String → Bool) (dirPath : String) :
    Except PyError (List String) :=
  match fs.scandir dirPath with
  | .error e => .error e
  | .ok es => parseNonrecursiveCore fs excl dirPath es

/-- The concatenation loop of `_parse_recursive`:
`recursive_playlist = [*recursive_playlist, *self._parse_nonrecusive(d)]`. -/
def concatRuns (fs : FileSystem) (excl : String → Bool) :
    List String → List String → Except PyError (List String)
  | [], acc => .ok acc
  | d :: ds, acc =>
    match parseNonrecursive fs excl d with
    | .error e => .error e
    | .ok xs => concatRuns fs excl ds (acc ++ xs)

/-- `PlaylistCollector._parse_recursive(path)`: collect the directory paths of
`os.walk`, sort them case-insensitively, concatenate the per-folder results. -/
def parseRecursive (fs : FileSystem) (excl : String → Bool) (p : String) :
    Except PyError (List String) :=
  concatRuns fs excl (sortStrings (fs.walkDirs p)) []

/-- The folder `parse` resolves:
`os.path.abspath(os.path.join(self._music_library_base_path, path))`, where
the base path was itself made absolute in `__init__`. -/
def parseFolderPath (cwd base path : String) : String :=
  abspath cwd (pjoin (abspath cwd base) path)

/-- `PlaylistCollector.parse(path, recursive)`: run the chosen traversal over
the resolved folder; `NotADirectoryError` and `FileNotFoundError` are caught
and logged, leaving the playlist empty (it was reset on entry); any other
exception propagates to the caller. -/
def parse (fs : FileSystem) (excl : String → Bool) (cwd base path : String)
    (recursive : Bool) : Except PyError (List String) :=
  let folder := parseFolderPath cwd base path
  match (if recursive then parseRecursive fs excl folder
         else parseNonrecursive fs excl folder) with
  | .ok pl => .ok pl
  | .error .fileNotFound => .ok []
  | .error .notADirectory => .ok []
  | .error e => .error e

/-! ### The exclusion pattern

`_exclude_endings = ['zip', 'py', 'db', 'png', 'jpg', 'conf', 'yaml', 'json',
'.*~', '.*#']` is interpolated verbatim into
`_exclude_str = '.*\\.((' + ')|('.join(_exclude_endings) + '))$'` and compiled
with `re.IGNORECASE`; `_is_valid` tests `_exclude_re.match(direntry.name)`.

For the default endings the compiled pattern is
`.*\.((zip)|(py)|(db)|(png)|(jpg)|(conf)|(yaml)|(json)|(.*~)|(.*#))$`:
`re.match` anchors at the start, `.*` cannot cross a newline, `$` matches at
the end of the string or just before a final newline, and the alternatives
`.*~` / `.*#` are themselves patterns, not literal suffixes.
`defaultExcludeMatch` implements `_exclude_re.match(name) is not None` for the
default endings with exactly these semantics. -/

/-- `PlaylistCollector._exclude_endings` (the class default). -/
def defaultExcludeEndings : List String :=
  ["zip", "py", "db", "png", "jpg", "conf", "yaml", "json", ".*~", ".*#"]

/-- `'.*\\.((' + ')|('.join(endings) + '))$'` — the pattern string built by the
class body and by `set_exclusion_endings`. -/
def excludeStr (endings : List String) : String :=
  ".*\\.((" ++ String.intercalate ")|(" endings ++ "))$"

/-- The literal alternatives of the default pattern. -/
def litEndings : List (List Char) :=
  ["zip", "py", "db", "png", "jpg", "conf", "yaml", "json"].map String.data

/-- Does a literal alternative `l` followed by `$` consume the tail `t`
(case-insensitively)?  `$` also matches just before one final newline. -/
def matchLitDollar (t l : List Char) : Bool :=
  t.map pyLower == l || t.map pyLower == l ++ ['\n']

/-- Does `.*c` followed by `$` consume the tail `t`?  The greedy `.*` cannot
cross a newline; `$` also matches just before one final newline. -/
def matchStarSym (t : List Char) (c : Char) : Bool :=
  (t.getLast? == some c && t.dropLast.all (fun x => !(x == '\n')))
  || (t.dropLast.getLast? == some c && t.getLast? == some '\n'
      && t.dropLast.dropLast.all (fun x => !(x == '\n')))

/-- Does one of the ten default alternatives followed by `$` consume `t`? -/
def altDollar (t : List Char) : Bool :=
  litEndings.any (matchLitDollar t) || matchStarSym t '~' || matchStarSym t '#'

/-- `_exclude_re.match(name) is not None` for the default endings: some
position `i` holds a `'.'`, the leading `.*` crosses `[0, i)` without a
newline, and an alternative followed by `$` consumes the rest. -/
def defaultExcludeMatch (name : String) : Bool :=
  (List.range name.data.length).any (fun i =>
    name.data[i]? == some '.'
    && (name.data.take i).all (fun x => !(x == '\n'))
    && altDollar (name.data.drop (i + 1)))

/-! ### Concrete environments used to evaluate the model -/

/-- A read oracle with no readable files. -/
def noFiles : String → Except PyError (List String) := fun _ => .error .fileNotFound

/-- A network oracle where every request raises. -/
def noFetch : String → Option HttpResponse := fun _ => none

/-- A music folder `/music/A` holding only plain media files. -/
def fsMedia : FileSystem :=
  ⟨[("/music/A", [⟨"b.mp3", true⟩, ⟨"a.mp3", true⟩])], fun _ => false, noFiles, noFetch⟩

/-- A folder `/m` with media files around a folder playlist `B.M3U` and a
second, later-sorted playlist `z.m3u` whose read would raise. -/
def fsM3u : FileSystem :=
  ⟨[("/m", [⟨"a.mp3", true⟩, ⟨"B.M3U", true⟩, ⟨"d.mp3", true⟩, ⟨"z.m3u", true⟩])],
   fun _ => false,
   fun p => if p = "/m/B.M3U" then .ok ["# comment", "", "c.mp3", "http://stream"]
            else .error .fileNotFound,
   noFetch⟩

/-- A feed body with two `enclosure url="..."` fragments on one line. -/
def feedBodyOneLine : String := "<enclosure url=\"A\"/><enclosure url=\"B\"/>"

/-- The same two fragments on separate lines. -/
def feedBodyTwoLines : String := "<enclosure url=\"A\"/>\n<enclosure url=\"B\"/>"

/-- A network with one feed per body shape; the two-line feed answers with a
non-200 status. -/
def fsFeed : FileSystem :=
  ⟨[], fun _ => false, noFiles,
   fun u => if u = "http://feed" then some ⟨200, feedBodyOneLine⟩
            else if u = "http://feed2" then some ⟨404, feedBodyTwoLines⟩
            else none⟩

/-- A folder `/m/A` whose single livestream list raises `FileNotFoundError`
when opened. -/
def fsReadFnf : FileSystem :=
  ⟨[("/m/A", [⟨"a-livestream.txt", true⟩])], fun _ => false,
   fun _ => .error .fileNotFound, noFetch⟩

/-- A folder `/m/A` whose single livestream list raises `PermissionError`
when opened. -/
def fsReadPerm : FileSystem :=
  ⟨[("/m/A", [⟨"a-livestream.txt", true⟩])], fun _ => false,
   fun _ => .error .permissionDenied, noFetch⟩

/-- A tree `/r` with sub-folders `A`, `A/sub` and `B`, one media file each. -/
def fsTree : FileSystem :=
  ⟨[("/r", [⟨"A", false⟩, ⟨"B", false⟩]),
    ("/r/B", [⟨"b.mp3", true⟩]),
    ("/r/A", [⟨"a.mp3", true⟩, ⟨"sub", false⟩]),
    ("/r/A/sub", [⟨"s.mp3", true⟩])],
   fun _ => false, noFiles, noFetch⟩

/-- A folder `/p` with a podcast list whose single feed line raises a network
error, followed by a media file. -/
def fsPodcastDown : FileSystem :=
  ⟨[("/p", [⟨"a-podcast.txt", true⟩, ⟨"z.mp3", true⟩])], fun _ => false,
   fun p => if p = "/p/a-podcast.txt" then .ok ["http://dead.example/feed"]
            else .error .fileNotFound,
   noFetch⟩

deriving instance DecidableEq for Except

/-! ### Helper lemmas -/

/-- `pyLower` only ever produces a basic-latin lowercase letter by moving; on
any target that is not such a letter it is injective onto itself. -/
theorem pyLower_eq_self_of_not_lc {c d : Char}
    (hd : ¬(97 ≤ d.toNat ∧ d.toNat ≤ 122)) (h : pyLower c = d) : c = d := by
  unfold pyLower at h
  split at h
  all_goals first
    | exact h
    | exact absurd (h ▸ (by decide)) hd

/-- Two incomparable lists cannot both be suffixes of the same list. -/
theorem not_suffix_of_suffix {a b s : List Char}
    (hab : ¬ a <:+ b) (hba : ¬ b <:+ a) (h : a <:+ s) : ¬ b <:+ s := fun hb =>
  (List.suffix_or_suffix_of_suffix h hb).elim hab hba

theorem endsCf_iff {name key : String} :
    endsCf name key = true ↔ key.data <:+ lowerData name := by
  simp [endsCf]

/-- A name whose casefolded form ends in `livestream.txt` is dispatched to the
livestream handler (the first key tried). -/
theorem classify_livestream {n : String} (h : endsCf n "livestream.txt" = true) :
    classify n = some HandlerKind.livestream := by
  simp [classify, handlerKeys, List.find?, h]

/-- A name whose casefolded form ends in `podcast.txt` cannot also end in
`livestream.txt`, so the podcast handler wins. -/
theorem classify_podcast {n : String} (h : endsCf n "podcast.txt" = true) :
    classify n = some HandlerKind.podcast := by
  have hls : endsCf n "livestream.txt" = false := by
    rw [Bool.eq_false_iff, Ne, endsCf_iff]
    exact not_suffix_of_suffix (by decide) (by decide) (endsCf_iff.mp h)
  simp [classify, handlerKeys, List.find?, h, hls]

/-- A name whose casefolded form ends in `.txt` but in neither special `.txt`
key is dispatched to the generic no-op `.txt` handler. -/
theorem classify_txt {n : String} (h : endsCf n ".txt" = true)
    (h₁ : endsCf n "livestream.txt" = false) (h₂ : endsCf n "podcast.txt" = false) :
    classify n = some HandlerKind.txt := by
  simp [classify, handlerKeys, List.find?, h, h₁, h₂]

/-- A name whose casefolded form ends in `.m3u` matches none of the `.txt`
keys, so the `.m3u` handler runs. -/
theorem classify_m3u {n : String} (h : endsCf n ".m3u" = true) :
    classify n = some HandlerKind.m3u := by
  have hs := endsCf_iff.mp h
  have h₁ : endsCf n "livestream.txt" = false := by
    rw [Bool.eq_false_iff, Ne, endsCf_iff]
    exact not_suffix_of_suffix (by decide) (by decide) hs
  have h₂ : endsCf n "podcast.txt" = false := by
    rw [Bool.eq_false_iff, Ne, endsCf_iff]
    exact not_suffix_of_suffix (by decide) (by decide) hs
  have h₃ : endsCf n ".txt" = false := by
    rw [Bool.eq_false_iff, Ne, endsCf_iff]
    exact not_suffix_of_suffix (by decide) (by decide) hs
  simp [classify, handlerKeys, List.find?, h, h₁, h₂, h₃]

/-- Processing a run of entries none of which is an `.m3u` file splits over
append: the first part runs, its accumulator feeds the second part, an
exception short-circuits. -/
theorem processEntries_append (fs : FileSystem) (p : String) (xs ys : List DirEntry)
    (h : ∀ e ∈ xs, classify e.name ≠ some HandlerKind.m3u) (acc : List String) :
    processEntries fs p (xs ++ ys) acc =
      match processEntries fs p xs acc with
      | .ok a => processEntries fs p ys a
      | .error e => .error e := by
  induction xs generalizing acc with
  | nil => simp [processEntries]
  | cons e rest ih =>
    have hme := h e (by simp)
    have hrest : ∀ x ∈ rest, classify x.name ≠ some HandlerKind.m3u :=
      fun x hx => h x (by simp [hx])
    cases hcl : classify e.name with
    | none => simpa [processEntries, hcl] using ih hrest _
    | some k =>
      cases k with
      | livestream =>
        cases hdl : decode_livestream fs (pjoin p e.name) with
        | error er => simp [processEntries, hcl, hdl]
        | ok xs₁ => simpa [processEntries, hcl, hdl] using ih hrest _
      | podcast =>
        cases hdl : decode_podcast fs (pjoin p e.name) with
        | error er => simp [processEntries, hcl, hdl]
        | ok xs₁ => simpa [processEntries, hcl, hdl] using ih hrest _
      | txt => simpa [processEntries, hcl] using ih hrest _
      | m3u => exact absurd hcl hme

/-- A name that does not end (casefolded) in `.m3u` is not dispatched to the
`.m3u` handler. -/
theorem classify_ne_m3u {n : String} (h : endsCf n ".m3u" = false) :
    classify n ≠ some HandlerKind.m3u := by
  cases h1 : endsCf n "livestream.txt" <;> cases h2 : endsCf n "podcast.txt" <;>
    cases h3 : endsCf n ".txt" <;>
      simp [classify, handlerKeys, List.find?, h1, h2, h3, h]

/-- If every directory of `ds` resolves without exception, the concatenation
loop of `_parse_recursive` returns the accumulated flat concatenation. -/
theorem concatRuns_forall₂ {fs : FileSystem} {excl : String → Bool}
    {ds : List String} {rs : List (List String)}
    (h : List.Forall₂ (fun d r => parseNonrecursive fs excl d = .ok r) ds rs) :
    ∀ acc, concatRuns fs excl ds acc = .ok (acc ++ rs.flatten) := by
  induction h with
  | nil => intro acc; simp [concatRuns]
  | cons h₁ _ ih => intro acc; simp [concatRuns, h₁, ih, List.append_assoc]

/-! ### The claims -/

/-- C5: each surviving entry's casefolded name is tested against the suffix
classifiers in the fixed order `livestream.txt`, `podcast.txt`, `.txt`,
`.m3u`; the first matching suffix's handler runs and no later classifier is
tried (a `livestream.txt` name also ends in `.txt` yet gets the livestream
handler), and an entry matching only the generic `.txt` classifier contributes
zero playlist entries and lets the folder loop continue. -/
theorem c5_classifier_priority (n : String) :
    (endsCf n "livestream.txt" = true → classify n = some HandlerKind.livestream) ∧
    (endsCf n "podcast.txt" = true → classify n = some HandlerKind.podcast) ∧
    (endsCf n ".txt" = true → endsCf n "livestream.txt" = false →
      endsCf n "podcast.txt" = false → classify n = some HandlerKind.txt) ∧
    (endsCf n ".m3u" = true → classify n = some HandlerKind.m3u) ∧
    (∀ (fs : FileSystem) (p : String) (e : DirEntry) (rest : List DirEntry)
       (acc : List String), classify e.name = some HandlerKind.txt →
       processEntries fs p (e :: rest) acc = processEntries fs p rest acc) := by
  refine ⟨fun h => classify_livestream h, fun h => classify_podcast h,
    fun h h₁ h₂ => classify_txt h h₁ h₂, fun h => classify_m3u h,
    fun fs p e rest acc hcl => ?_⟩
  simp [processEntries, hcl]

/-- Witness for C5: `01-Livestream.TXT` ends in `.txt` as well, yet the
livestream handler wins; a generic `notes.txt` entry is a no-op that keeps the
accumulated entries and the loop going. -/
theorem c5_classifier_priority_witness :
    classify "01-Livestream.TXT" = some HandlerKind.livestream ∧
    processEntries fsMedia "/m" [⟨"notes.txt", true⟩, ⟨"x.mp3", true⟩] ["keep"] =
      processEntries fsMedia "/m" [⟨"x.mp3", true⟩] ["keep"] :=
  ⟨(c5_classifier_priority "01-Livestream.TXT").1 (by decide),
   (c5_classifier_priority "notes.txt").2.2.2.2 fsMedia "/m" ⟨"notes.txt", true⟩
     [⟨"x.mp3", true⟩] ["keep"] (by decide)⟩

/-- C7: when the folder `parse` resolves does not exist (or is not a
directory in the table), no exception reaches the caller and the playlist is
empty — non-recursively the `scandir` error is caught, recursively `os.walk`
yields nothing. -/
theorem c7_missing_root_graceful (fs : FileSystem) (excl : String → Bool)
    (cwd base path : String) (recursive : Bool)
    (h : fs.findDir (parseFolderPath cwd base path) = none) :
    parse fs excl cwd base path recursive = .ok [] := by
  unfold parse
  cases recursive with
  | true =>
    simp only [if_true]
    unfold parseRecursive FileSystem.walkDirs
    rw [h]
    simp [concatRuns, sortStrings, pySort]
  | false =>
    simp only [if_false]
    unfold parseNonrecursive FileSystem.scandir
    rw [h]
    cases hf : fs.isFilePath (parseFolderPath cwd base path) <;> simp [hf]

/-- Witness for C7: resolving the missing folder `/music/Z` (non-recursively)
and the file path `/music/A` used as a folder both yield an empty playlist
without an exception. -/
theorem c7_missing_root_graceful_witness :
    fsMedia.findDir (parseFolderPath "/" "/music" "Z") = none ∧
    parse fsMedia defaultExcludeMatch "/" "/music" "Z" false = .ok [] ∧
    parse fsMedia defaultExcludeMatch "/" "/music" "Z" true = .ok [] :=
  ⟨by decide,
   c7_missing_root_graceful fsMedia defaultExcludeMatch "/" "/music" "Z" false (by decide),
   c7_missing_root_graceful fsMedia defaultExcludeMatch "/" "/music" "Z" true (by decide)⟩

/-- C10: only entries whose `is_file()` flag holds pass `_is_valid`; inserting
a non-file entry (a sub-directory, say) anywhere into a folder listing leaves
that folder's resolved list unchanged. -/
theorem c10_only_files_contribute (fs : FileSystem) (excl : String → Bool)
    (p : String) (e : DirEntry) (es₁ es₂ : List DirEntry) :
    (isValid excl e = true → e.isFile = true) ∧
    (e.isFile = false →
      parseNonrecursiveCore fs excl p (es₁ ++ e :: es₂) =
        parseNonrecursiveCore fs excl p (es₁ ++ es₂)) := by
  constructor
  · intro h
    have h' := h
    simp only [isValid, Bool.and_eq_true] at h'
    exact h'.1.1
  · intro h
    have hv : isValid excl e = false := by simp [isValid, h]
    simp [parseNonrecursiveCore, List.filter_append, List.filter_cons, hv]

/-- Witness for C10: a sub-directory entry `Sub` inserted between two media
files leaves the resolved folder list unchanged. -/
theorem c10_only_files_contribute_witness :
    parseNonrecursiveCore fsMedia defaultExcludeMatch "/music/A"
        ([⟨"a.mp3", true⟩] ++ ⟨"Sub", false⟩ :: [⟨"b.mp3", true⟩]) =
      parseNonrecursiveCore fsMedia defaultExcludeMatch "/music/A"
        ([⟨"a.mp3", true⟩] ++ [⟨"b.mp3", true⟩]) :=
  (c10_only_files_contribute fsMedia defaultExcludeMatch "/music/A"
    ⟨"Sub", false⟩ [⟨"a.mp3", true⟩] [⟨"b.mp3", true⟩]).2 rfl

/-- C2: when the case-insensitively sorted valid entries of a folder contain
an `.m3u` file, and everything sorted before the first such file processes
without exception, the folder resolves to exactly the content of that first
`.m3u` file: the entries accumulated so far (`acc'`) are discarded, the list
is rebuilt solely from the file's stripped non-blank non-comment lines, and no
later-sorted entry — `es₂`, including any second `.m3u` — is processed. -/
theorem c2_m3u_overrides_folder (fs : FileSystem) (excl : String → Bool)
    (p : String) (es es₁ es₂ : List DirEntry) (m : DirEntry) (acc' : List String)
    (hscan : fs.scandir p = .ok es)
    (hsort : sortEntries (es.filter (isValid excl)) = es₁ ++ m :: es₂)
    (hfirst : ∀ x ∈ es₁, endsCf x.name ".m3u" = false)
    (hm : endsCf m.name ".m3u" = true)
    (hpre : processEntries fs p es₁ [] = .ok acc') :
    parseNonrecursive fs excl p = decode_m3u fs (pjoin p m.name) p := by
  have hm3u := classify_m3u hm
  have hfirst' : ∀ x ∈ es₁, classify x.name ≠ some HandlerKind.m3u :=
    fun x hx => classify_ne_m3u (hfirst x hx)
  unfold parseNonrecursive
  rw [hscan]
  show parseNonrecursiveCore fs excl p es = decode_m3u fs (pjoin p m.name) p
  unfold parseNonrecursiveCore
  rw [hsort, processEntries_append fs p es₁ (m :: es₂) hfirst' [], hpre]
  simp [processEntries, hm3u]

/-- Witness for C2: in `/m` the file `B.M3U` (sorted after `a.mp3`, before
`d.mp3` and `z.m3u`) alone determines the folder playlist; the accumulated
`/m/a.mp3` is discarded, `d.mp3` is skipped, and the second playlist `z.m3u`
is never read although reading it would raise. -/
theorem c2_m3u_overrides_folder_witness :
    parseNonrecursive fsM3u defaultExcludeMatch "/m" =
      decode_m3u fsM3u "/m/B.M3U" "/m" ∧
    decode_m3u fsM3u "/m/B.M3U" "/m" = .ok ["/m/c.mp3", "http://stream"] ∧
    processEntries fsM3u "/m" [⟨"a.mp3", true⟩] [] = .ok ["/m/a.mp3"] :=
  ⟨c2_m3u_overrides_folder fsM3u defaultExcludeMatch "/m"
      [⟨"a.mp3", true⟩, ⟨"B.M3U", true⟩, ⟨"d.mp3", true⟩, ⟨"z.m3u", true⟩]
      [⟨"a.mp3", true⟩] [⟨"d.mp3", true⟩, ⟨"z.m3u", true⟩] ⟨"B.M3U", true⟩
      ["/m/a.mp3"] (by decide) (by decide) (by decide) (by decide) (by decide),
   by decide, by decide⟩

/-- C6: in recursive mode the walk enumerates exactly the directories of the
subtree rooted at the start path (the root itself and every directory below
it); the full list is sorted case-insensitively and the per-folder results are
concatenated in that order — e.g. paths sorting as `A`, `A/sub`, `B`. -/
theorem c6_recursive_order (fs : FileSystem) (excl : String → Bool) (p : String) :
    (∀ q, q ∈ fs.walkDirs p ↔
      ((fs.findDir p).isSome = true ∧ q ∈ fs.dirents.map Prod.fst ∧
        (q = p ∨ startsWithLit q (p ++ "/") = true))) ∧
    (∀ rs : List (List String),
      List.Forall₂ (fun d r => parseNonrecursive fs excl d = .ok r)
        (sortStrings (fs.walkDirs p)) rs →
      parseRecursive fs excl p = .ok rs.flatten) ∧
    sortStrings ["/r/B", "/r/A/sub", "/r/A"] = ["/r/A", "/r/A/sub", "/r/B"] := by
  refine ⟨fun q => ?_, fun rs h => ?_, by decide⟩
  · unfold FileSystem.walkDirs
    cases hd : (fs.findDir p).isSome with
    | true => simp [hd, List.mem_filter]
    | false => simp [hd]
  · unfold parseRecursive
    simpa using concatRuns_forall₂ h []

/-- Witness for C6: over the tree `/r` the folder groups come in the order
`/r`, `/r/A`, `/r/A/sub`, `/r/B`, each contributing its own entries. -/
theorem c6_recursive_order_witness :
    sortStrings (fsTree.walkDirs "/r") = ["/r", "/r/A", "/r/A/sub", "/r/B"] ∧
    parseRecursive fsTree defaultExcludeMatch "/r" =
      .ok ["/r/A/a.mp3", "/r/A/sub/s.mp3", "/r/B/b.mp3"] := by
  refine ⟨by decide, ?_⟩
  have h := (c6_recursive_order fsTree defaultExcludeMatch "/r").2.1
    [[], ["/r/A/a.mp3"], ["/r/A/sub/s.mp3"], ["/r/B/b.mp3"]]
  simpa using h (by decide)

/-- C8: a feed whose GET raises contributes zero entries without raising; a
response body is scanned for enclosures regardless of the status code; a
podcast list whose feeds are all unreachable contributes nothing and the
folder loop continues with the next entry; a body without enclosure matches
yields zero entries. -/
theorem c8_fetch_failure_absorbed (fs : FileSystem) (url : String) :
    (fs.fetch url = none → decode_podcast_core fs url = []) ∧
    (∀ r : HttpResponse, fs.fetch url = some r →
      decode_podcast_core fs url = enclosureFindall r.body) ∧
    (∀ (p : String) (e : DirEntry) (rest : List DirEntry) (acc ls : List String),
      classify e.name = some HandlerKind.podcast →
      fs.fileRead (pjoin p e.name) = .ok ls →
      (∀ l ∈ cleanLines ls, fs.fetch l = none) →
      processEntries fs p (e :: rest) acc = processEntries fs p rest acc) ∧
    enclosureFindall "<rss><item>no media</item></rss>" = [] := by
  refine ⟨fun h => by simp [decode_podcast_core, h],
    fun r h => by simp [decode_podcast_core, h],
    fun p e rest acc ls hcl hread hdown => ?_, by decide⟩
  have hempty : ∀ L : List String, (∀ l ∈ L, fs.fetch l = none) →
      L.flatMap (decode_podcast_core fs) = [] := by
    intro L hL
    induction L with
    | nil => simp
    | cons l rest' ih =>
      have h1 : decode_podcast_core fs l = [] := by
        simp [decode_podcast_core, hL l (by simp)]
      have h2 := ih (fun x hx => hL x (by simp [hx]))
      simp [h1, h2]
  simp [processEntries, hcl, decode_podcast, hread, hempty _ hdown]

/-- C1 (failing input): for the plain-media folder `A` under the base path
`/music`, the resolved playlist is the case-insensitive sort of the files —
but of their **absolute** paths `/music/A/...`: `parse` hands the absolute
folder to `_parse_nonrecusive` and `decode_musicfile` joins it with the file
name, so the base path is never stripped, contradicting the class's own
docstring ("all files in the playlist are relative to this base dir"). -/
theorem c1_musicfolder_paths_absolute :
    parse fsMedia defaultExcludeMatch "/" "/music" "A" false =
      .ok ["/music/A/a.mp3", "/music/A/b.mp3"] ∧
    parse fsMedia defaultExcludeMatch "/" "/music" "A" false ≠
      .ok ["A/a.mp3", "A/b.mp3"] := by
  constructor
  · rfl
  · decide

/-- C3 (counterexample): a feed body holding two `enclosure url="..."`
occurrences **on one line** yields a single entry: the greedy `.*` of
`enclosure_re` swallows the first occurrence and `findall` captures only the
last URL of the line, `B` — not two entries as the claim states for every
body with two occurrences. -/
theorem c3_two_enclosures_one_line_counterexample :
    countOcc feedBodyOneLine "enclosure url=\"" = 2 ∧
    decode_podcast_core fsFeed "http://feed" = ["B"] := by
  constructor
  · decide
  · decide

/-- C3 (amended): the fetcher appends exactly the captures of the
non-overlapping `findall` matches of `enclosure_re`, in scan order; since a
match cannot cross a newline before its `url="`, two occurrences on separate
lines give two entries in body order (on a single line the greedy `.*`
collapses them into one match capturing the last URL). -/
theorem c3_enclosures_in_scan_order (fs : FileSystem) (url : String)
    (r : HttpResponse) (h : fs.fetch url = some r) :
    decode_podcast_core fs url = enclosureFindall r.body ∧
    enclosureFindall feedBodyTwoLines = ["A", "B"] :=
  ⟨by simp [decode_podcast_core, h], by decide⟩

/-- Witness for C3 (amended), at the two-line feed (whose status is 404: the
body is scanned all the same). -/
theorem c3_enclosures_in_scan_order_witness :
    fsFeed.fetch "http://feed2" = some ⟨404, feedBodyTwoLines⟩ ∧
    (decode_podcast_core fsFeed "http://feed2" = enclosureFindall feedBodyTwoLines ∧
      enclosureFindall feedBodyTwoLines = ["A", "B"]) :=
  ⟨by decide,
   c3_enclosures_in_scan_order fsFeed "http://feed2" ⟨404, feedBodyTwoLines⟩ (by decide)⟩

/-- C4 (counterexample): a livestream list that raises `FileNotFoundError`
when opened mid-walk does **not** propagate to the caller of `parse`: the
top-level `except FileNotFoundError` clause absorbs it and the playlist is
left empty. -/
theorem c4_filenotfound_absorbed_counterexample :
    fsReadFnf.fileRead "/m/A/a-livestream.txt" = .error .fileNotFound ∧
    (fsReadFnf.findDir "/m/A").isSome = true ∧
    parse fsReadFnf defaultExcludeMatch "/" "/m" "A" false = .ok [] := by
  refine ⟨rfl, rfl, ?_⟩
  decide

/-- C4 (amended): a read failure on a list file mid-walk — the first failing
entry `f` of the sorted listing, with everything before it (none of it an
`.m3u`) processed — reaches the caller of `parse` as that exception, unless it
is a `FileNotFoundError` or `NotADirectoryError`, which the same handler that
guards the root check catches, leaving the playlist empty. -/
theorem c4_read_error_propagation (fs : FileSystem) (excl : String → Bool)
    (cwd base path : String) (es es₁ es₂ : List DirEntry) (f : DirEntry)
    (acc' : List String) (e : PyError)
    (hscan : fs.scandir (parseFolderPath cwd base path) = .ok es)
    (hsort : sortEntries (es.filter (isValid excl)) = es₁ ++ f :: es₂)
    (hfirst : ∀ x ∈ es₁, classify x.name ≠ some HandlerKind.m3u)
    (hpre : processEntries fs (parseFolderPath cwd base path) es₁ [] = .ok acc')
    (hfail :
      (classify f.name = some HandlerKind.livestream ∧
        decode_livestream fs (pjoin (parseFolderPath cwd base path) f.name) = .error e) ∨
      (classify f.name = some HandlerKind.podcast ∧
        decode_podcast fs (pjoin (parseFolderPath cwd base path) f.name) = .error e) ∨
      (classify f.name = some HandlerKind.m3u ∧
        decode_m3u fs (pjoin (parseFolderPath cwd base path) f.name)
          (parseFolderPath cwd base path) = .error e)) :
    parse fs excl cwd base path false =
      if e = .fileNotFound ∨ e = .notADirectory then .ok [] else .error e := by
  have hrun : parseNonrecursive fs excl (parseFolderPath cwd base path) = .error e := by
    unfold parseNonrecursive
    rw [hscan]
    show parseNonrecursiveCore fs excl (parseFolderPath cwd base path) es = .error e
    unfold parseNonrecursiveCore
    rw [hsort,
      processEntries_append fs (parseFolderPath cwd base path) es₁ (f :: es₂) hfirst [],
      hpre]
    rcases hfail with ⟨h₁, h₂⟩ | ⟨h₁, h₂⟩ | ⟨h₁, h₂⟩ <;> simp [processEntries, h₁, h₂]
  unfold parse
  simp only [if_false]
  rw [hrun]
  cases e <;> simp

/-- Witness for C4 (amended): the same folder shape with a `PermissionError`
read failure — the exception reaches the caller of `parse`. -/
theorem c4_read_error_propagation_witness :
    fsReadPerm.fileRead "/m/A/a-livestream.txt" = .error .permissionDenied ∧
    parse fsReadPerm defaultExcludeMatch "/" "/m" "A" false =
      .error .permissionDenied := by
  refine ⟨rfl, ?_⟩
  have h := c4_read_error_propagation fsReadPerm defaultExcludeMatch "/" "/m" "A"
    [⟨"a-livestream.txt", true⟩] [] [] ⟨"a-livestream.txt", true⟩ [] .permissionDenied
    (by decide) (by decide) (by simp) (by decide)
    (Or.inl ⟨by decide, by decide⟩)
  simpa using h

/-! ### Semantics of the default exclusion pattern -/

theorem getLast?_of_suffix {t s : List Char} (h : t <:+ s) (hne : t ≠ []) :
    s.getLast? = t.getLast? := by
  obtain ⟨u, rfl⟩ := h
  obtain ⟨c, hc⟩ := Option.isSome_iff_exists.mp (List.getLast?_isSome.mpr hne)
  rw [List.getLast?_append, hc]
  rfl

theorem eq_take_cons_drop {s : List Char} {i : Nat} {c : Char} (h : s[i]? = some c) :
    s = s.take i ++ c :: s.drop (i + 1) := by
  obtain ⟨hlt, hget⟩ := List.getElem?_eq_some_iff.mp h
  conv_lhs => rw [← List.take_append_drop i s]
  rw [List.drop_eq_getElem_cons hlt, hget]

/-- The membership form of `defaultExcludeMatch`. -/
theorem defaultExcludeMatch_iff_exists {name : String} :
    defaultExcludeMatch name = true ↔
      ∃ i, name.data[i]? = some '.'
        ∧ (name.data.take i).all (fun x => !(x == '\n')) = true
        ∧ altDollar (name.data.drop (i + 1)) = true := by
  unfold defaultExcludeMatch
  rw [List.any_eq_true]
  constructor
  · rintro ⟨i, _, hb⟩
    simp only [Bool.and_eq_true, beq_iff_eq] at hb
    exact ⟨i, hb.1.1, hb.1.2, hb.2⟩
  · rintro ⟨i, h1, h2, h3⟩
    have hi : i < name.data.length := (List.getElem?_eq_some_iff.mp h1).1
    exact ⟨i, List.mem_range.mpr hi, by simp [h1, h2, h3]⟩

/-- Under a no-newline tail, a literal alternative matches exactly when it
equals the lowercased tail. -/
theorem matchLitDollar_iff_of_noNl {t l : List Char} (hnl : ∀ x ∈ t, x ≠ '\n') :
    matchLitDollar t l = true ↔ t.map pyLower = l := by
  unfold matchLitDollar
  simp only [Bool.or_eq_true, beq_iff_eq]
  constructor
  · rintro (h | h)
    · exact h
    · exfalso
      have hmem : '\n' ∈ t.map pyLower := by rw [h]; simp
      obtain ⟨x, hx, hlx⟩ := List.mem_map.mp hmem
      exact hnl x hx (pyLower_eq_self_of_not_lc (by decide) hlx)
  · exact fun h => Or.inl h

/-- Under a no-newline tail, `.*c$` matches exactly when the tail ends in
`c`. -/
theorem matchStarSym_iff_of_noNl {t : List Char} {c : Char}
    (hnl : ∀ x ∈ t, x ≠ '\n') :
    matchStarSym t c = true ↔ t.getLast? = some c := by
  unfold matchStarSym
  simp only [Bool.or_eq_true, Bool.and_eq_true, beq_iff_eq]
  constructor
  · rintro (⟨h, _⟩ | ⟨⟨_, h⟩, _⟩)
    · exact h
    · exact absurd (hnl _ (List.mem_of_getLast?_eq_some h)) (by simp)
  · intro h
    refine Or.inl ⟨h, List.all_eq_true.mpr fun x hx => ?_⟩
    have hxs : x ∈ t := (List.dropLast_sublist t).subset hx
    simp [hnl x hxs]

/-- Under a no-newline tail, one of the ten default alternatives matches
exactly when the lowercased tail is one of the eight literals or the tail
ends in `~` or `#`. -/
theorem altDollar_iff_of_noNl {t : List Char} (hnl : ∀ x ∈ t, x ≠ '\n') :
    altDollar t = true ↔
      ((∃ l ∈ litEndings, t.map pyLower = l)
        ∨ t.getLast? = some '~' ∨ t.getLast? = some '#') := by
  unfold altDollar
  simp only [Bool.or_eq_true, List.any_eq_true]
  constructor
  · rintro ((⟨l, hl, hm⟩ | h) | h)
    · exact Or.inl ⟨l, hl, (matchLitDollar_iff_of_noNl hnl).mp hm⟩
    · exact Or.inr (Or.inl ((matchStarSym_iff_of_noNl hnl).mp h))
    · exact Or.inr (Or.inr ((matchStarSym_iff_of_noNl hnl).mp h))
  · rintro (⟨l, hl, hm⟩ | h | h)
    · exact Or.inl (Or.inl ⟨l, hl, (matchLitDollar_iff_of_noNl hnl).mpr hm⟩)
    · exact Or.inl (Or.inr ((matchStarSym_iff_of_noNl hnl).mpr h))
    · exact Or.inr ((matchStarSym_iff_of_noNl hnl).mpr h)

/-- A dot somewhere in a list ending in `c ≠ '.'` sits strictly before the
last position, so the tail after it is nonempty and still ends in `c`. -/
theorem dot_before_last {s : List Char} {c : Char} (hcdot : c ≠ '.')
    (hdot : '.' ∈ s) (hlast : s.getLast? = some c) :
    ∃ i, s[i]? = some '.' ∧ (s.drop (i + 1)).getLast? = some c := by
  obtain ⟨i, hi, hget⟩ := List.getElem_of_mem hdot
  have h1 : s[i]? = some '.' := List.getElem?_eq_some_iff.mpr ⟨hi, hget⟩
  have hi1 : i + 1 < s.length := by
    rcases Nat.lt_or_ge (i + 1) s.length with hlt | hge
    · exact hlt
    · exfalso
      have hieq : i = s.length - 1 := by omega
      rw [List.getLast?_eq_getElem?, ← hieq, h1] at hlast
      exact hcdot (Option.some.inj hlast).symm
  have hne : s.drop (i + 1) ≠ [] :=
    List.ne_nil_of_length_pos (by rw [List.length_drop]; omega)
  exact ⟨i, h1, by
    rw [← getLast?_of_suffix (List.drop_suffix (i + 1) s) hne]
    exact hlast⟩

/-- C9: the configured endings are interpolated verbatim into the single
pattern `.*\.((e1)|(e2)|...)$` (shown for the class default), a match always
requires a literal dot somewhere in the name, and on newline-free names the
compiled default pattern matches exactly the names whose lowercased form ends
in `.zip`/`.py`/… (dot immediately before a literal ending) or that contain a
dot and end in `~` or `#` (the endings `.*~` and `.*#` act as patterns, not
literal suffixes). -/
theorem c9_exclusion_regex_semantics :
    excludeStr defaultExcludeEndings =
      ".*\\.((zip)|(py)|(db)|(png)|(jpg)|(conf)|(yaml)|(json)|(.*~)|(.*#))$" ∧
    (∀ name : String, defaultExcludeMatch name = true → '.' ∈ name.data) ∧
    (∀ name : String, (∀ c ∈ name.data, c ≠ '\n') →
      (defaultExcludeMatch name = true ↔
        ((∃ l ∈ litEndings, ('.' :: l) <:+ lowerData name) ∨
         ('.' ∈ name.data ∧ name.data.getLast? = some '~') ∨
         ('.' ∈ name.data ∧ name.data.getLast? = some '#')))) := by
  refine ⟨by decide, fun name h => ?_, fun name hnl => ?_⟩
  · obtain ⟨i, h1, -, -⟩ := defaultExcludeMatch_iff_exists.mp h
    exact List.getElem?_mem h1
  · have hnlDrop : ∀ i, ∀ x ∈ name.data.drop i, x ≠ '\n' :=
      fun i x hx => hnl x (List.drop_subset i name.data hx)
    have hallTake : ∀ i, (name.data.take i).all (fun x => !(x == '\n')) = true :=
      fun i => List.all_eq_true.mpr fun x hx => by
        simp [hnl x (List.take_subset i name.data hx)]
    rw [defaultExcludeMatch_iff_exists]
    constructor
    · rintro ⟨i, h1, -, h3⟩
      rcases (altDollar_iff_of_noNl (hnlDrop (i + 1))).mp h3 with ⟨l, hl, hm⟩ | h | h
      · refine Or.inl ⟨l, hl, ⟨(name.data.take i).map pyLower, ?_⟩⟩
        have hdec := congrArg (List.map pyLower) (eq_take_cons_drop h1)
        rw [List.map_append, List.map_cons, hm] at hdec
        exact hdec.symm
      · refine Or.inr (Or.inl ⟨List.getElem?_mem h1, ?_⟩)
        have hne : name.data.drop (i + 1) ≠ [] := by
          intro hempty
          rw [hempty] at h
          exact Option.noConfusion h
        rw [getLast?_of_suffix (List.drop_suffix (i + 1) name.data) hne]
        exact h
      · refine Or.inr (Or.inr ⟨List.getElem?_mem h1, ?_⟩)
        have hne : name.data.drop (i + 1) ≠ [] := by
          intro hempty
          rw [hempty] at h
          exact Option.noConfusion h
        rw [getLast?_of_suffix (List.drop_suffix (i + 1) name.data) hne]
        exact h
    · rintro (⟨l, hl, u, hu⟩ | ⟨hdot, hlast⟩ | ⟨hdot, hlast⟩)
      · have humap : u ++ '.' :: l = name.data.map pyLower := hu
        have hlen : name.data.length = u.length + (l.length + 1) := by
          have hlg := congrArg List.length humap
          simp only [List.length_append, List.length_cons, List.length_map] at hlg
          omega
        have hmapi : (name.data.map pyLower)[u.length]? = some '.' := by
          rw [← humap, List.getElem?_append_right (Nat.le_refl u.length)]
          simp
        have h1 : name.data[u.length]? = some '.' := by
          rw [List.getElem?_map] at hmapi
          obtain ⟨c, hc, hlc⟩ := Option.map_eq_some'.mp hmapi
          rw [hc, pyLower_eq_self_of_not_lc (by decide) hlc]
        have hdrop : (name.data.drop (u.length + 1)).map pyLower = l := by
          rw [List.map_drop, ← humap, ← List.drop_drop 1 u.length, List.drop_left]
          rfl
        refine ⟨u.length, h1, hallTake u.length, ?_⟩
        rw [altDollar_iff_of_noNl (hnlDrop (u.length + 1))]
        exact Or.inl ⟨l, hl, hdrop⟩
      · obtain ⟨i, h1, hld⟩ := dot_before_last (by decide) hdot hlast
        refine ⟨i, h1, hallTake i, ?_⟩
        rw [altDollar_iff_of_noNl (hnlDrop (i + 1))]
        exact Or.inr (Or.inl hld)
      · obtain ⟨i, h1, hld⟩ := dot_before_last (by decide) hdot hlast
        refine ⟨i, h1, hallTake i, ?_⟩
        rw [altDollar_iff_of_noNl (hnlDrop (i + 1))]
        exact Or.inr (Or.inr hld)

/-- Witness for C9: `a.zip` matches, so it contains a dot; `Backup.TAR#`
contains a dot and ends in `#`, so the `.*#` alternative matches it. -/
theorem c9_exclusion_regex_semantics_witness :
    '.' ∈ "a.zip".data ∧ defaultExcludeMatch "Backup.TAR#" = true :=
  ⟨c9_exclusion_regex_semantics.2.1 "a.zip" (by decide),
   (c9_exclusion_regex_semantics.2.2 "Backup.TAR#" (by decide)).mpr
     (Or.inr (Or.inr ⟨by decide, by decide⟩))⟩

/-- Witness for C8: the podcast list under `/p` points at an unreachable
feed; it contributes nothing and the loop moves on to `z.mp3`. -/
theorem c8_fetch_failure_absorbed_witness :
    decode_podcast_core fsPodcastDown "http://dead.example/feed" = [] ∧
    processEntries fsPodcastDown "/p" [⟨"a-podcast.txt", true⟩, ⟨"z.mp3", true⟩] [] =
      processEntries fsPodcastDown "/p" [⟨"z.mp3", true⟩] [] :=
  ⟨(c8_fetch_failure_absorbed fsPodcastDown "http://dead.example/feed").1 rfl,
   (c8_fetch_failure_absorbed fsPodcastDown "http://dead.example/feed").2.2.1 "/p"
     ⟨"a-podcast.txt", true⟩ [⟨"z.mp3", true⟩] [] ["http://dead.example/feed"]
     (by decide) (by decide) (by decide)⟩

end PlGen
